import Mathlib

/-!
Shallow embedding of the `newton` 2-D gravity simulator (Rust).

Embedded source files:
  * `src/physics/mod.rs` — `Mass`, `Environment`, `Body`
  * `src/util/write.rs`  — `DataWriter`

The geometry value types (`Point`, `Vector`) live in a `geometry` module that
is not part of the provided sources; they are modelled from the spec (§3):
immutable 2-D values with component-wise addition and scalar scaling/division.
Scalars (`f32` in Rust) are modelled as exact rationals `ℚ`: every claim under
verification is about the algebraic structure of the computation (which
operations are applied, in which order, to which components), not about
rounding behaviour.

Rust panics are modelled as `Except`/`Option` failure values; an `unwrap`-free
normal return is `.ok`/`some`.  File-system effects of `DataWriter` are
modelled by returning the frame record (path and lines) that the call writes,
with an explicit `WriteOutcome` oracle standing for success or failure of the
underlying I/O.
-/

namespace Newton

-- Geometry ------------------------------------------------------------------

/-- Modelled from the spec: `Position` is "a 2-D point (x, y), floating point"
(`geometry::Point`, not under `src/`). -/
structure Point where
  x : ℚ
  y : ℚ
deriving DecidableEq, Repr

/-- Modelled from the spec: `Velocity`/`Force` is "a 2-D displacement
(dx, dy), floating point" (`geometry::Vector`, not under `src/`). -/
structure Vector where
  dx : ℚ
  dy : ℚ
deriving DecidableEq, Repr

def Vector.zero : Vector := ⟨0, 0⟩

/-- Modelled from the spec: `Velocity ... supports vector addition`
(component-wise `+`, the Rust `Add`/`AddAssign` impl on `Vector`). -/
def Vector.add (a b : Vector) : Vector := ⟨a.dx + b.dx, a.dy + b.dy⟩

instance : Add Vector := ⟨Vector.add⟩

/-- Modelled from the spec: scaling a vector by a scalar (used by the spec's
phrase "force scaled by 1/mass"). -/
def Vector.scale (q : ℚ) (v : Vector) : Vector := ⟨q * v.dx, q * v.dy⟩

/-- Modelled from the spec: component-wise division of a vector by a scalar
(the Rust `Div<f32>` impl on `&Vector`, used as `force / self.mass.value()`). -/
def Vector.divScalar (v : Vector) (q : ℚ) : Vector := ⟨v.dx / q, v.dy / q⟩

instance : HDiv Vector ℚ Vector := ⟨Vector.divScalar⟩

-- Mass (src/physics/mod.rs, lines 16-46) ------------------------------------

/-- `Mass`: simple wrapper around a scalar (`pub struct Mass(f32)`). -/
structure Mass where
  val : ℚ
deriving DecidableEq, Repr

/-- `Mass::new`: panics when `m <= 0.0`, otherwise wraps the value.
The panic is modelled as `none`. -/
def Mass.new (m : ℚ) : Option Mass :=
  if m ≤ 0 then none else some ⟨m⟩

/-- `impl From<f32> for Mass`: delegates to `Mass::new`. -/
def Mass.ofScalar (m : ℚ) : Option Mass := Mass.new m

/-- `Mass::value`: returns the wrapped scalar. -/
def Mass.value (m : Mass) : ℚ := m.val

-- Body (src/physics/mod.rs, lines 96-144) -----------------------------------

/-- `Body`: owns one `Mass`, one `Point` position and one `Vector` velocity. -/
structure Body where
  mass : Mass
  position : Point
  velocity : Vector
deriving DecidableEq, Repr

/-- `Body::new`: builds the mass via `Mass::from` (hence may panic on a
non-positive mass, modelled as `none`). -/
def Body.new (mass : ℚ) (position : Point) (velocity : Vector) : Option Body :=
  (Mass.ofScalar mass).map (fun m => ⟨m, position, velocity⟩)

/-- `Body::apply_force`: `self.velocity += force / self.mass.value()`. -/
def Body.apply_force (b : Body) (force : Vector) : Body :=
  { b with velocity := b.velocity + force / b.mass.value }

/-- `Body::apply_velocity`: `self.position.x += self.velocity.dx;
self.position.y += self.velocity.dy`. -/
def Body.apply_velocity (b : Body) : Body :=
  { b with position := ⟨b.position.x + b.velocity.dx, b.position.y + b.velocity.dy⟩ }

-- Referential equality of bodies (src/physics/mod.rs, lines 103-125) --------

/-- A `Body` allocation: Rust's `PartialEq for Body` compares
`self as *const _ == other as *const _`, i.e. the addresses of the two
references.  An allocation pairs the struct value with its address. -/
structure BodyAlloc where
  addr : ℕ
  val : Body
deriving DecidableEq, Repr

/-- `impl PartialEq for Body`: referential comparison of the two addresses. -/
def bodyPtrEq (a b : BodyAlloc) : Bool := a.addr == b.addr

/-- `impl Clone for Body`: `Body::new(self.mass.value(), self.position.clone(),
self.velocity.clone())` — a fresh allocation (at a new address `fresh`)
holding a copy of the state. -/
def BodyAlloc.clone (a : BodyAlloc) (fresh : ℕ) : Option BodyAlloc :=
  (Body.new a.val.mass.value a.val.position a.val.velocity).map
    (fun nb => ⟨fresh, nb⟩)

-- DataWriter (src/util/write.rs) --------------------------------------------

/-- `DataWriter`: a directory name and a sequential frame counter.
The Rust counter is `u32`; it is modelled as `ℕ` (under Rust's checked
arithmetic an overflowing `+= 1` aborts the run, so the counter never
wraps within a completed run). -/
structure DataWriter where
  directory : String
  counter : ℕ
deriving DecidableEq, Repr

/-- `DataWriter::new`: creates the backing directory once and starts the
counter at 0. -/
def DataWriter.new (directory : String) : DataWriter :=
  ⟨directory, 0⟩

/-- The path `format!("{}/frame-{}.txt", directory, counter)`. -/
def framePath (directory : String) (counter : ℕ) : String :=
  directory ++ "/frame-" ++ toString counter ++ ".txt"

/-- Serialization of one point: `writeln!(file, "{},{}", point.x, point.y)`
produces the line `x,y`. -/
def pointLine (p : Point) : String :=
  toString p.x ++ "," ++ toString p.y

/-- `DataWriter::write_points`: one line per point, in input order. -/
def DataWriter.write_points : List Point → List String
  | [] => []
  | p :: ps => pointLine p :: DataWriter.write_points ps

/-- A frame record on disk: its sequential number, its file path and its
lines. -/
structure Frame where
  number : ℕ
  path : String
  lines : List String
deriving DecidableEq, Repr

/-- Outcome of the underlying file I/O (`fs::File::create` and the
`writeln!` calls) during one `DataWriter::write` call. -/
inductive WriteOutcome where
  | success
  | failure (msg : String)
deriving DecidableEq, Repr

/-- `DataWriter::write`: computes the path from the current counter, calls
`write_points`, panics (`Except.error`) if the I/O failed, and only
otherwise increments the counter.  The second component is the writer state
when the call ends (at the panic point, for a failed write). -/
def DataWriter.write (w : DataWriter) (points : List Point)
    (outcome : WriteOutcome) : Except String Frame × DataWriter :=
  match outcome with
  | .failure e => (.error ("Error writing data. " ++ e), w)
  | .success =>
      (.ok ⟨w.counter, framePath w.directory w.counter,
            DataWriter.write_points points⟩,
       { w with counter := w.counter + 1 })

-- Environment (src/physics/mod.rs, lines 52-90) ------------------------------

/-- A force field, `dyn Field`: `fn forces(&self, bodies: &[Body]) ->
Vec<Vector>`.  A trait object taking a read-only slice is a function of the
body list. -/
def FieldFn : Type := List Body → List Vector

/-- The inner loop of `Environment::update`:
`for (body, force) in self.bodies.iter_mut().zip(forces.iter())
   { body.apply_force(force); }`.
`zip` stops at the shorter sequence, leaving any remaining bodies
untouched. -/
def applyForces : List Body → List Vector → List Body
  | bs, [] => bs
  | [], _ => []
  | b :: bs, f :: fs => b.apply_force f :: applyForces bs fs

/-- `Environment`: bodies, fields, and the persistence writer. -/
structure Environment where
  bodies : List Body
  fields : List FieldFn
  writer : DataWriter

/-- `Environment::update`: for each field in turn, compute forces from the
current bodies and apply them; then apply each body's velocity; then collect
the positions and write them once.  A panic inside `DataWriter::write`
propagates (`Except.error`). -/
def Environment.update (env : Environment) (outcome : WriteOutcome) :
    Except String (Environment × Frame) :=
  let afterFields :=
    env.fields.foldl (fun bs field => applyForces bs (field bs)) env.bodies
  let moved := afterFields.map Body.apply_velocity
  let points := moved.map (fun b => b.position)
  match env.writer.write points outcome with
  | (.error e, _) => .error e
  | (.ok frame, w) => .ok ({ env with bodies := moved, writer := w }, frame)

/-- Iterated stepping: run `k` consecutive updates (all I/O succeeding),
collecting the emitted frames in order.  The error branch is unreachable
for successful I/O. -/
def Environment.run : Environment → ℕ → Environment × List Frame
  | env, 0 => (env, [])
  | env, k + 1 =>
      match env.update .success with
      | .error _ => (env, [])
      | .ok (env1, frame) =>
          let rest := env1.run k
          (rest.1, frame :: rest.2)

-- Spec-side definitions (for refinement comparisons) -------------------------

/-- Modelled from the spec, §4.4 (b): "for each body, update velocity by
adding force scaled by 1/mass". -/
def specKick (b : Body) (f : Vector) : Body :=
  { b with velocity := b.velocity + Vector.scale (1 / b.mass.value) f }

/-- Spec-side per-field application of forces to the matching bodies. -/
def specKickAll : List Body → List Vector → List Body
  | bs, [] => bs
  | [], _ => []
  | b :: bs, f :: fs => specKick b f :: specKickAll bs fs

/-- Modelled from the spec, §4.4 (c): "for each body, update position by
adding the (now updated) velocity". -/
def specDrift (b : Body) : Body :=
  { b with position := ⟨b.position.x + b.velocity.dx,
                        b.position.y + b.velocity.dy⟩ }

/-- Modelled from the spec, §4.4 (a)-(c): per field in turn, kick every body
by that field's force; after all fields, drift every body. -/
def specStepBodies (fields : List FieldFn) (bodies : List Body) : List Body :=
  (fields.foldl (fun bs field => specKickAll bs (field bs)) bodies).map specDrift

/-- Modelled from the spec, §4.1: "their outputs are summed per body before
being applied" — the per-body sum of all fields' outputs on a fixed body
list. -/
def sumForces (fields : List FieldFn) (bodies : List Body) : List Vector :=
  fields.foldr (fun field acc => List.zipWith Vector.add (field bodies) acc)
    (List.replicate bodies.length Vector.zero)

/-- The read-only view of a body a field may depend on: its mass and its
position (spec §6: "an ordered, read-only view of bodies (mass, position)"). -/
def mpView (b : Body) : Mass × Point := (b.mass, b.position)

/-- A field is read-only when its output is a function of the bodies' masses
and positions alone. -/
def ReadOnlyField (field : FieldFn) : Prop :=
  ∀ bs bs' : List Body, bs.map mpView = bs'.map mpView → field bs = field bs'

/-- A field honours the output contract when it returns one force per body
(spec §6: "length equal to input length"). -/
def LengthContract (field : FieldFn) : Prop :=
  ∀ bs : List Body, (field bs).length = bs.length

-- Basic projection lemmas -----------------------------------------------------

lemma apply_force_mass (b : Body) (f : Vector) :
    (b.apply_force f).mass = b.mass := rfl

lemma apply_force_position (b : Body) (f : Vector) :
    (b.apply_force f).position = b.position := rfl

lemma apply_velocity_mass (b : Body) : b.apply_velocity.mass = b.mass := rfl

lemma apply_velocity_velocity (b : Body) :
    b.apply_velocity.velocity = b.velocity := rfl

lemma vector_add_def (a b : Vector) : a + b = Vector.add a b := rfl

lemma vector_div_def (v : Vector) (q : ℚ) : v / q = Vector.divScalar v q := rfl

lemma scale_one_div_eq_div (q : ℚ) (v : Vector) :
    Vector.scale (1 / q) v = Vector.divScalar v q := by
  simp [Vector.scale, Vector.divScalar, one_div, inv_mul_eq_div]

lemma specKick_eq_apply_force (b : Body) (f : Vector) :
    specKick b f = b.apply_force f := by
  unfold specKick Body.apply_force
  rw [vector_div_def, ← scale_one_div_eq_div]

lemma specKickAll_eq_applyForces : ∀ (bs : List Body) (fs : List Vector),
    specKickAll bs fs = applyForces bs fs
  | bs, [] => by cases bs <;> rfl
  | [], _ :: _ => rfl
  | b :: bs, f :: fs => by
      simp [specKickAll, applyForces, specKick_eq_apply_force,
        specKickAll_eq_applyForces bs fs]

lemma specDrift_eq_apply_velocity : specDrift = Body.apply_velocity := rfl

lemma specStepBodies_eq (fields : List FieldFn) (bodies : List Body) :
    specStepBodies fields bodies =
      (fields.foldl (fun bs field => applyForces bs (field bs)) bodies).map
        Body.apply_velocity := by
  unfold specStepBodies
  rw [specDrift_eq_apply_velocity]
  congr 1
  induction fields generalizing bodies with
  | nil => rfl
  | cons f fs ih => simp [List.foldl_cons, specKickAll_eq_applyForces, ih]

/-- The environment state after one fully successful update step. -/
def envNext (env : Environment) : Environment :=
  { env with
      bodies :=
        (env.fields.foldl (fun bs field => applyForces bs (field bs))
            env.bodies).map Body.apply_velocity,
      writer := { env.writer with counter := env.writer.counter + 1 } }

/-- Unfolding of one fully successful `Environment::update` call. -/
lemma update_success_eq (env : Environment) :
    env.update .success =
      .ok ({ env with
               bodies :=
                 (env.fields.foldl (fun bs field => applyForces bs (field bs))
                     env.bodies).map Body.apply_velocity,
               writer := { env.writer with counter := env.writer.counter + 1 } },
           ⟨env.writer.counter,
            framePath env.writer.directory env.writer.counter,
            DataWriter.write_points
              (((env.fields.foldl (fun bs field => applyForces bs (field bs))
                   env.bodies).map Body.apply_velocity).map
                 (fun b => b.position))⟩) := rfl

-- C2 -------------------------------------------------------------------------

/-- C2: constructing a `Mass` from any value `≤ 0` (via `Mass::new`,
`Mass::from` or `Body::new`) fails with a precondition violation, and for any
value `> 0` construction succeeds with `Mass::value` returning exactly that
value (and `Body::new` storing the given position and velocity unchanged). -/
theorem mass_construction_guard (m : ℚ) (p : Point) (v : Vector) :
    (Mass.new m = none ↔ m ≤ 0) ∧
    Mass.ofScalar m = Mass.new m ∧
    (Body.new m p v = none ↔ m ≤ 0) ∧
    (0 < m →
      (Mass.new m).map Mass.value = some m ∧
      (Body.new m p v).map (fun b => b.mass.value) = some m ∧
      (Body.new m p v).map (fun b => (b.position, b.velocity)) = some (p, v)) := by
  refine ⟨?_, rfl, ?_, ?_⟩
  · unfold Mass.new
    split <;> simp_all
  · unfold Body.new Mass.ofScalar Mass.new
    split <;> simp_all
  · intro hm
    have hne : ¬ m ≤ 0 := not_le.mpr hm
    unfold Body.new Mass.ofScalar Mass.new
    simp [hne, Mass.value]

/-- C2 witness: concrete instances — `Mass::new 3` succeeds with value 3,
`Mass::new 0` and `Mass::new (-5)` fail, as does `Body::new` at mass 0. -/
theorem mass_construction_guard_witness :
    (0:ℚ) < 3 ∧
    ((Mass.new 3).map Mass.value = some 3 ∧
     (Body.new 3 ⟨0, 0⟩ ⟨0, 0⟩).map (fun b => b.mass.value) = some 3 ∧
     (Body.new 3 ⟨0, 0⟩ ⟨0, 0⟩).map (fun b => (b.position, b.velocity)) =
       some (⟨0, 0⟩, ⟨0, 0⟩)) ∧
    (Mass.new 0 = none ↔ (0:ℚ) ≤ 0) ∧
    (Mass.new (-5) = none ↔ (-5:ℚ) ≤ 0) ∧
    (Body.new 0 ⟨0, 0⟩ ⟨0, 0⟩ = none ↔ (0:ℚ) ≤ 0) :=
  ⟨by decide,
   (mass_construction_guard 3 ⟨0, 0⟩ ⟨0, 0⟩).2.2.2 (by decide),
   (mass_construction_guard 0 ⟨0, 0⟩ ⟨0, 0⟩).1,
   (mass_construction_guard (-5) ⟨0, 0⟩ ⟨0, 0⟩).1,
   (mass_construction_guard 0 ⟨0, 0⟩ ⟨0, 0⟩).2.2.1⟩

-- C4 -------------------------------------------------------------------------

/-- C4: body equality is referential — every allocation equals itself, two
allocations at distinct addresses are unequal even with identical state, and a
clone (a fresh allocation copying the state) compares unequal to the
original. -/
theorem body_referential_equality (a b : BodyAlloc) (fresh : ℕ) :
    bodyPtrEq a a = true ∧
    (a.val = b.val → a.addr ≠ b.addr → bodyPtrEq a b = false) ∧
    (0 < a.val.mass.value → fresh ≠ a.addr →
      ∃ c : BodyAlloc, a.clone fresh = some c ∧ c.val = a.val ∧
        bodyPtrEq a c = false) := by
  refine ⟨by simp [bodyPtrEq], ?_, ?_⟩
  · intro _ hne
    simp [bodyPtrEq, hne]
  · intro hm hfresh
    have hne : ¬ a.val.mass.value ≤ 0 := not_le.mpr hm
    refine ⟨⟨fresh, ⟨⟨a.val.mass.value⟩, a.val.position, a.val.velocity⟩⟩, ?_, ?_, ?_⟩
    · simp [BodyAlloc.clone, Body.new, Mass.ofScalar, Mass.new, hne]
    · simp [Mass.value]
    · simp [bodyPtrEq, Ne.symm hfresh]

/-- C4 witness: a body at address 1 with mass 1, position (1, 2), zero
velocity equals itself; a distinct allocation of the very same state at
address 2 compares unequal; its clone at address 5 compares unequal. -/
theorem body_referential_equality_witness :
    bodyPtrEq ⟨1, ⟨⟨1⟩, ⟨1, 2⟩, ⟨0, 0⟩⟩⟩ ⟨1, ⟨⟨1⟩, ⟨1, 2⟩, ⟨0, 0⟩⟩⟩ = true ∧
    bodyPtrEq ⟨1, ⟨⟨1⟩, ⟨1, 2⟩, ⟨0, 0⟩⟩⟩ ⟨2, ⟨⟨1⟩, ⟨1, 2⟩, ⟨0, 0⟩⟩⟩ = false ∧
    (∃ c : BodyAlloc,
      BodyAlloc.clone ⟨1, ⟨⟨1⟩, ⟨1, 2⟩, ⟨0, 0⟩⟩⟩ 5 = some c ∧
      c.val = Body.mk ⟨1⟩ ⟨1, 2⟩ ⟨0, 0⟩ ∧
      bodyPtrEq ⟨1, ⟨⟨1⟩, ⟨1, 2⟩, ⟨0, 0⟩⟩⟩ c = false) :=
  ⟨(body_referential_equality ⟨1, ⟨⟨1⟩, ⟨1, 2⟩, ⟨0, 0⟩⟩⟩ ⟨2, ⟨⟨1⟩, ⟨1, 2⟩, ⟨0, 0⟩⟩⟩ 5).1,
   (body_referential_equality ⟨1, ⟨⟨1⟩, ⟨1, 2⟩, ⟨0, 0⟩⟩⟩ ⟨2, ⟨⟨1⟩, ⟨1, 2⟩, ⟨0, 0⟩⟩⟩ 5).2.1
     rfl (by decide),
   (body_referential_equality ⟨1, ⟨⟨1⟩, ⟨1, 2⟩, ⟨0, 0⟩⟩⟩ ⟨2, ⟨⟨1⟩, ⟨1, 2⟩, ⟨0, 0⟩⟩⟩ 5).2.2
     (by decide) (by decide)⟩

-- C6 -------------------------------------------------------------------------

/-- C6: `write_points` records exactly one line per input point, in input
order, each line being the point's x and y serialized as two comma-separated
values with nothing after them. -/
theorem write_points_one_line_per_point (pts : List Point) :
    (DataWriter.write_points pts).length = pts.length ∧
    DataWriter.write_points pts =
      pts.map (fun p => toString p.x ++ "," ++ toString p.y) := by
  constructor
  · induction pts with
    | nil => rfl
    | cons p ps ih => simp [DataWriter.write_points, ih]
  · induction pts with
    | nil => rfl
    | cons p ps ih => simp [DataWriter.write_points, ih, pointLine]

-- C7 -------------------------------------------------------------------------

/-- C7: if the underlying I/O fails while writing a frame, `DataWriter::write`
panics with a fatal error (never returns normally). -/
theorem write_fatal_on_io_error (w : DataWriter) (pts : List Point) (msg : String) :
    (w.write pts (.failure msg)).1 = .error ("Error writing data. " ++ msg) ∧
    (∀ frame : Frame, (w.write pts (.failure msg)).1 ≠ .ok frame) := by
  refine ⟨rfl, ?_⟩
  intro frame h
  simp [DataWriter.write] at h

/-- C7 witness: a failed write at a concrete writer produces the panic
message and is not a normal return. -/
theorem write_fatal_on_io_error_witness :
    ((DataWriter.mk "data" 0).write [⟨1, 2⟩] (.failure "disk full")).1 =
      .error "Error writing data. disk full" ∧
    ((DataWriter.mk "data" 0).write [⟨1, 2⟩] (.failure "disk full")).1 ≠
      .ok ⟨0, "data/frame-0.txt", []⟩ :=
  ⟨((write_fatal_on_io_error (DataWriter.mk "data" 0) [⟨1, 2⟩] "disk full").1),
   ((write_fatal_on_io_error (DataWriter.mk "data" 0) [⟨1, 2⟩] "disk full").2
     ⟨0, "data/frame-0.txt", []⟩)⟩

-- C10 ------------------------------------------------------------------------

/-- C10: the frame counter is incremented only after a fully successful write;
a failed write leaves the counter unchanged and consumes no frame number,
while a successful write uses the pre-call counter as the frame number and
increments by exactly one. -/
theorem write_counter_atomic (w : DataWriter) (pts : List Point) :
    (∀ msg : String, ((w.write pts (.failure msg)).2).counter = w.counter) ∧
    ((w.write pts .success).2).counter = w.counter + 1 ∧
    (∀ frame : Frame, (w.write pts .success).1 = .ok frame →
      frame.number = w.counter) := by
  refine ⟨fun _ => rfl, rfl, ?_⟩
  intro frame h
  simp only [DataWriter.write] at h
  cases h
  rfl

/-- C10 witness: at a concrete writer with counter 7, a failed write keeps the
counter at 7; a successful write emits frame number 7 and moves the counter
to 8. -/
theorem write_counter_atomic_witness :
    ((DataWriter.mk "data" 7).write [] (.failure "boom")).2.counter = 7 ∧
    ((DataWriter.mk "data" 7).write [] .success).2.counter = 7 + 1 ∧
    (⟨7, "data/frame-7.txt", []⟩ : Frame).number = 7 :=
  ⟨(write_counter_atomic (DataWriter.mk "data" 7) []).1 "boom",
   (write_counter_atomic (DataWriter.mk "data" 7) []).2.1,
   (write_counter_atomic (DataWriter.mk "data" 7) []).2.2
     ⟨7, "data/frame-7.txt", []⟩ rfl⟩

-- C8 -------------------------------------------------------------------------

/-- C8: `Body::apply_force` sets the velocity to `v + F/m` component-wise and
leaves the position (and mass) unchanged; mass enters the integration nowhere
else — `apply_velocity` on bodies agreeing in position and velocity produces
the same position regardless of mass. -/
theorem apply_force_velocity_kick :
    (∀ (b : Body) (F : Vector),
      (b.apply_force F).velocity.dx = b.velocity.dx + F.dx / b.mass.value ∧
      (b.apply_force F).velocity.dy = b.velocity.dy + F.dy / b.mass.value ∧
      (b.apply_force F).position = b.position ∧
      (b.apply_force F).mass = b.mass) ∧
    (∀ b1 b2 : Body, b1.position = b2.position → b1.velocity = b2.velocity →
      b1.apply_velocity.position = b2.apply_velocity.position) := by
  refine ⟨fun b F => ⟨rfl, rfl, rfl, rfl⟩, ?_⟩
  intro b1 b2 hp hv
  simp [Body.apply_velocity, hp, hv]

/-- C8 witness: the repository's `body_applies_force` test — mass 2, velocity
(-2, 5), force (3, -3) yields velocity (-0.5, 3.5) with position (1, 2)
untouched; and `apply_velocity` ignores mass (masses 2 vs 7). -/
theorem apply_force_velocity_kick_witness :
    (((Body.mk ⟨2⟩ ⟨1, 2⟩ ⟨-2, 5⟩).apply_force ⟨3, -3⟩).velocity.dx =
        (Body.mk ⟨2⟩ ⟨1, 2⟩ ⟨-2, 5⟩).velocity.dx + (3:ℚ) / (Body.mk ⟨2⟩ ⟨1, 2⟩ ⟨-2, 5⟩).mass.value ∧
      ((Body.mk ⟨2⟩ ⟨1, 2⟩ ⟨-2, 5⟩).apply_force ⟨3, -3⟩).velocity.dy =
        (Body.mk ⟨2⟩ ⟨1, 2⟩ ⟨-2, 5⟩).velocity.dy + (-3:ℚ) / (Body.mk ⟨2⟩ ⟨1, 2⟩ ⟨-2, 5⟩).mass.value ∧
      ((Body.mk ⟨2⟩ ⟨1, 2⟩ ⟨-2, 5⟩).apply_force ⟨3, -3⟩).position = ⟨1, 2⟩ ∧
      ((Body.mk ⟨2⟩ ⟨1, 2⟩ ⟨-2, 5⟩).apply_force ⟨3, -3⟩).mass = ⟨2⟩) ∧
    ((Body.mk ⟨2⟩ ⟨1, 2⟩ ⟨-2, 5⟩).apply_force ⟨3, -3⟩).velocity = ⟨-1/2, 7/2⟩ ∧
    (Body.mk ⟨2⟩ ⟨1, 2⟩ ⟨-2, 5⟩).apply_velocity.position =
      (Body.mk ⟨7⟩ ⟨1, 2⟩ ⟨-2, 5⟩).apply_velocity.position :=
  ⟨apply_force_velocity_kick.1 (Body.mk ⟨2⟩ ⟨1, 2⟩ ⟨-2, 5⟩) ⟨3, -3⟩,
   by
     simp [Body.apply_force, Mass.value, vector_add_def, vector_div_def,
       Vector.add, Vector.divScalar, Vector.mk.injEq]
     norm_num,
   apply_force_velocity_kick.2 (Body.mk ⟨2⟩ ⟨1, 2⟩ ⟨-2, 5⟩)
     (Body.mk ⟨7⟩ ⟨1, 2⟩ ⟨-2, 5⟩) rfl rfl⟩

-- C9 -------------------------------------------------------------------------

lemma applyForces_map_mass : ∀ (bs : List Body) (fs : List Vector),
    (applyForces bs fs).map Body.mass = bs.map Body.mass
  | bs, [] => by cases bs <;> rfl
  | [], _ :: _ => rfl
  | b :: bs, f :: fs => by
      simp [applyForces, apply_force_mass, applyForces_map_mass bs fs]

lemma fieldsFold_map_mass (fields : List FieldFn) (bs : List Body) :
    ((fields.foldl (fun bs field => applyForces bs (field bs)) bs).map Body.mass) =
      bs.map Body.mass := by
  induction fields generalizing bs with
  | nil => rfl
  | cons f fs ih => simp [List.foldl_cons, ih, applyForces_map_mass]

/-- C9: a (successful) `Environment::update` step never changes any body's
mass — the list of masses, in body order, is exactly the same after the step
as before it. -/
theorem update_preserves_masses (env : Environment) :
    (env.update .success).toOption.map (fun r => r.1.bodies.map Body.mass) =
      some (env.bodies.map Body.mass) := by
  rw [update_success_eq]
  have hcomp : (Body.mass ∘ Body.apply_velocity) = Body.mass := rfl
  simp only [Except.toOption, Option.map, List.map_map, hcomp, fieldsFold_map_mass]

-- C1 -------------------------------------------------------------------------

/-- C1: one `Environment::update` call performs exactly the spec's
semi-implicit Euler pipeline — per field in turn, kick every body's velocity
by its force scaled by 1/mass; only after all fields, drift every body's
position by its updated velocity; then write the resulting positions, in body
order, as exactly one new frame (the writer's counter advancing by one). -/
theorem update_semi_implicit_euler (env : Environment) :
    env.update .success =
      .ok ({ env with
               bodies := specStepBodies env.fields env.bodies,
               writer := { env.writer with counter := env.writer.counter + 1 } },
           ⟨env.writer.counter,
            framePath env.writer.directory env.writer.counter,
            DataWriter.write_points
              ((specStepBodies env.fields env.bodies).map (fun b => b.position))⟩) := by
  rw [specStepBodies_eq]
  exact update_success_eq env

-- C5 -------------------------------------------------------------------------

/-- Across `k` successful steps, the emitted frame numbers are the `k`
consecutive integers from the initial counter, the counter advances by `k`,
and exactly one frame is emitted per step. -/
lemma run_frames (k : ℕ) : ∀ env : Environment,
    (env.run k).2.map Frame.number = List.range' env.writer.counter k ∧
    (env.run k).1.writer.counter = env.writer.counter + k ∧
    (env.run k).2.length = k := by
  induction k with
  | zero => exact fun env => ⟨rfl, rfl, rfl⟩
  | succ k ih =>
      intro env
      obtain ⟨h1, h2, h3⟩ := ih (envNext env)
      have hrun : env.run (k + 1) =
          (((envNext env).run k).1,
            (⟨env.writer.counter,
              framePath env.writer.directory env.writer.counter,
              DataWriter.write_points
                ((envNext env).bodies.map (fun b => b.position))⟩ : Frame)
            :: ((envNext env).run k).2) := rfl
      have hcnt : (envNext env).writer.counter = env.writer.counter + 1 := rfl
      refine ⟨?_, ?_, ?_⟩
      · rw [hrun]
        simp only [List.map_cons, h1, hcnt, List.range'_succ]
      · rw [hrun, h2, hcnt]
        omega
      · rw [hrun]
        simp only [List.length_cons, h3]

/-- C5: starting from a fresh writer (counter 0), `k` consecutive steps emit
exactly one frame each, numbered `0` through `k-1` in order with no number
reused, the counter advancing by exactly one per successful write. -/
theorem frames_numbered_sequentially (env : Environment) (k : ℕ)
    (h0 : env.writer.counter = 0) :
    (env.run k).2.map Frame.number = List.range k ∧
    (env.run k).2.length = k ∧
    (env.run k).1.writer.counter = k ∧
    ((env.run k).2.map Frame.number).Nodup ∧
    (∀ (w : DataWriter) (pts : List Point),
      ((w.write pts .success).2).counter = w.counter + 1) := by
  obtain ⟨h1, h2, h3⟩ := run_frames k env
  rw [h0] at h1 h2
  rw [← List.range_eq_range'] at h1
  exact ⟨h1, h3, by simpa using h2, h1 ▸ List.nodup_range k, fun w pts => rfl⟩

/-- C5 witness: a concrete one-body environment under a zero field, stepped
three times, emits frames numbered 0, 1, 2. -/
theorem frames_numbered_sequentially_witness :
    (Environment.mk [Body.mk ⟨1⟩ ⟨0, 0⟩ ⟨0, 0⟩]
        [fun bs => bs.map (fun _ => Vector.zero)]
        (DataWriter.new "data")).writer.counter = 0 ∧
    ((Environment.mk [Body.mk ⟨1⟩ ⟨0, 0⟩ ⟨0, 0⟩]
        [fun bs => bs.map (fun _ => Vector.zero)]
        (DataWriter.new "data")).run 3).2.map Frame.number = List.range 3 :=
  ⟨rfl,
   (frames_numbered_sequentially
     (Environment.mk [Body.mk ⟨1⟩ ⟨0, 0⟩ ⟨0, 0⟩]
        [fun bs => bs.map (fun _ => Vector.zero)]
        (DataWriter.new "data")) 3 rfl).1⟩

-- C3 -------------------------------------------------------------------------

lemma sumForces_nil (bs : List Body) :
    sumForces [] bs = List.replicate bs.length Vector.zero := rfl

lemma sumForces_cons (f : FieldFn) (fs : List FieldFn) (bs : List Body) :
    sumForces (f :: fs) bs = List.zipWith Vector.add (f bs) (sumForces fs bs) := rfl

lemma apply_force_add (b : Body) (f g : Vector) :
    (b.apply_force f).apply_force g = b.apply_force (Vector.add f g) := by
  unfold Body.apply_force
  congr 1
  simp only [vector_add_def, vector_div_def, Vector.add, Vector.divScalar,
    Mass.value, Vector.mk.injEq]
  refine ⟨?_, ?_⟩ <;> ring

lemma apply_force_zero (b : Body) : b.apply_force Vector.zero = b := by
  unfold Body.apply_force
  simp [vector_add_def, vector_div_def, Vector.add, Vector.divScalar,
    Vector.zero, Mass.value]

lemma applyForces_length : ∀ (bs : List Body) (fs : List Vector),
    (applyForces bs fs).length = bs.length
  | bs, [] => by cases bs <;> rfl
  | [], _ :: _ => rfl
  | b :: bs, f :: fs => by
      simp [applyForces, applyForces_length bs fs]

lemma applyForces_map_mpView : ∀ (bs : List Body) (fs : List Vector),
    (applyForces bs fs).map mpView = bs.map mpView
  | bs, [] => by cases bs <;> rfl
  | [], _ :: _ => rfl
  | b :: bs, f :: fs => by
      simp only [applyForces, List.map_cons, applyForces_map_mpView bs fs]
      rfl

lemma applyForces_replicate_zero : ∀ bs : List Body,
    applyForces bs (List.replicate bs.length Vector.zero) = bs
  | [] => rfl
  | b :: bs => by
      simp [List.replicate, applyForces, apply_force_zero,
        applyForces_replicate_zero bs]

lemma applyForces_applyForces : ∀ (bs : List Body) (fs gs : List Vector),
    fs.length = gs.length →
    applyForces (applyForces bs fs) gs =
      applyForces bs (List.zipWith Vector.add fs gs)
  | bs, [], [] => fun _ => by cases bs <;> rfl
  | bs, [], _ :: _ => fun h => by simp at h
  | bs, _ :: _, [] => fun h => by simp at h
  | [], f :: fs, g :: gs => fun _ => rfl
  | b :: bs, f :: fs, g :: gs => fun h => by
      simp only [applyForces, List.zipWith_cons_cons]
      rw [apply_force_add,
        applyForces_applyForces bs fs gs (by simpa using h)]

lemma sumForces_length (fields : List FieldFn) (bs : List Body)
    (h : ∀ f ∈ fields, (f bs).length = bs.length) :
    (sumForces fields bs).length = bs.length := by
  induction fields with
  | nil => simp [sumForces_nil]
  | cons f fs ih =>
      rw [sumForces_cons, List.length_zipWith,
        h f (List.mem_cons_self f fs),
        ih (fun g hg => h g (List.mem_cons_of_mem f hg)), min_self]

lemma sumForces_congr (fields : List FieldFn) (bs bs' : List Body)
    (hlen : bs'.length = bs.length)
    (hfield : ∀ f ∈ fields, f bs' = f bs) :
    sumForces fields bs' = sumForces fields bs := by
  induction fields with
  | nil => rw [sumForces_nil, sumForces_nil, hlen]
  | cons f fs ih =>
      rw [sumForces_cons, sumForces_cons,
        hfield f (List.mem_cons_self f fs),
        ih (fun g hg => hfield g (List.mem_cons_of_mem f hg))]

/-- Sequential per-field application equals one application of the per-body
sum of all (read-only, length-honouring) fields' outputs. -/
lemma fieldsFold_eq_sum (fields : List FieldFn) : ∀ bs : List Body,
    (∀ f ∈ fields, ReadOnlyField f) →
    (∀ f ∈ fields, LengthContract f) →
    fields.foldl (fun bs field => applyForces bs (field bs)) bs =
      applyForces bs (sumForces fields bs) := by
  induction fields with
  | nil =>
      intro bs _ _
      simp [sumForces_nil, applyForces_replicate_zero]
  | cons f fs ih =>
      intro bs hro hlc
      have hfs_ro : ∀ g ∈ fs, ReadOnlyField g :=
        fun g hg => hro g (List.mem_cons_of_mem f hg)
      have hfs_lc : ∀ g ∈ fs, LengthContract g :=
        fun g hg => hlc g (List.mem_cons_of_mem f hg)
      have hview : (applyForces bs (f bs)).map mpView = bs.map mpView :=
        applyForces_map_mpView bs (f bs)
      have hlen1 : (applyForces bs (f bs)).length = bs.length :=
        applyForces_length bs (f bs)
      have hgbs : ∀ g ∈ fs, g (applyForces bs (f bs)) = g bs :=
        fun g hg => hfs_ro g hg (applyForces bs (f bs)) bs hview
      rw [List.foldl_cons, ih (applyForces bs (f bs)) hfs_ro hfs_lc,
        sumForces_congr fs bs (applyForces bs (f bs)) hlen1 hgbs,
        applyForces_applyForces bs (f bs) (sumForces fs bs)
          (by rw [hlc f (List.mem_cons_self f fs) bs,
                sumForces_length fs bs (fun g hg => hfs_lc g hg bs)]),
        ← sumForces_cons]

/-- C3: for an environment with more than one field, all fields read-only
(functions of masses and positions only) and honouring the one-force-per-body
output contract, the sequential per-field application done by
`Environment::update` leaves every body with the same final velocity as
applying the per-body sum of all fields' outputs once. -/
theorem multi_field_sum_equivalence (env : Environment)
    (_hmulti : 1 < env.fields.length)
    (hro : ∀ f ∈ env.fields, ReadOnlyField f)
    (hlc : ∀ f ∈ env.fields, LengthContract f) :
    (env.update .success).toOption.map (fun r => r.1.bodies.map Body.velocity) =
      some ((applyForces env.bodies (sumForces env.fields env.bodies)).map
        Body.velocity) := by
  rw [update_success_eq]
  have hcomp : (Body.velocity ∘ Body.apply_velocity) = Body.velocity := rfl
  simp only [Except.toOption, Option.map, List.map_map, hcomp]
  rw [fieldsFold_eq_sum env.fields env.bodies hro hlc]

/-- A constant field: every body receives the same force vector. -/
def constField (v : Vector) : FieldFn := fun bs => bs.map (fun _ => v)

lemma constField_readonly (v : Vector) : ReadOnlyField (constField v) := by
  intro bs bs' h
  have hlen : bs.length = bs'.length := by
    have := congrArg List.length h
    simpa using this
  simp [constField, List.map_const', hlen]

lemma constField_contract (v : Vector) : LengthContract (constField v) := by
  intro bs
  simp [constField]

/-- The concrete two-field, two-body environment used by the C3 witness. -/
def envTwoFields : Environment :=
  Environment.mk
    [Body.mk ⟨1⟩ ⟨0, 0⟩ ⟨0, 0⟩, Body.mk ⟨2⟩ ⟨1, 1⟩ ⟨0, 0⟩]
    [constField ⟨1, 2⟩, constField ⟨3, 4⟩]
    (DataWriter.new "data")

lemma envTwoFields_fields_props :
    (∀ f ∈ envTwoFields.fields, ReadOnlyField f) ∧
    (∀ f ∈ envTwoFields.fields, LengthContract f) := by
  constructor <;>
    · intro f hf
      rcases hf with _ | ⟨_, (_ | ⟨_, h⟩)⟩
      · first
          | exact constField_readonly _
          | exact constField_contract _
      · first
          | exact constField_readonly _
          | exact constField_contract _
      · cases h

/-- C3 witness: in the concrete two-field environment, an update step gives
every body the same velocity as one application of the summed field
outputs. -/
theorem multi_field_sum_equivalence_witness :
    1 < envTwoFields.fields.length ∧
    ((envTwoFields.update .success).toOption.map
        (fun r => r.1.bodies.map Body.velocity) =
      some ((applyForces envTwoFields.bodies
          (sumForces envTwoFields.fields envTwoFields.bodies)).map
        Body.velocity)) :=
  ⟨by decide,
   multi_field_sum_equivalence envTwoFields (by decide)
     envTwoFields_fields_props.1 envTwoFields_fields_props.2⟩

end Newton
